import Mathlib

/-!
Verification development for the Scrapler competitive-monitoring system.

The Python sources are shallowly embedded: each relevant function becomes a
Lean definition over `List Char` / `String`, prices are modelled as exact
rationals `ℚ`, fallible operations return `Option`, and site pages are
represented by the raw field texts the selector cascade extracts from them.
-/

namespace Scrapler

/-- Matching of one character list against the front of another, the building
block for Python's substring test. -/
def startsWithSeq : List Char → List Char → Bool
  | [], _ => true
  | _ :: _, [] => false
  | a :: as, b :: bs => a == b && startsWithSeq as bs

/-- Python's `needle in hay` on strings: `needle` occurs contiguously in `hay`. -/
def hasSub : List Char → List Char → Bool
  | needle, [] => needle.isEmpty
  | needle, c :: rest => startsWithSeq needle (c :: rest) || hasSub needle rest

/-- Numeric value of a run of ASCII digit characters, most significant first. -/
def digitsToNat (l : List Char) : Nat :=
  l.foldl (fun n c => 10 * n + (c.toNat - '0'.toNat)) 0

/-- Embedding of Python `float()` restricted to the strings `_clean_price`
can feed it (digits, periods and commas): it succeeds exactly when the string
consists of digits and at most one period with at least one digit, giving the
exact decimal value. A comma or a second period raises `ValueError` in Python,
modelled by `none`. -/
def parseFloat? (l : List Char) : Option ℚ :=
  if l.all (fun c => c.isDigit || c == '.') && decide (l.count '.' ≤ 1)
      && l.any (fun c => c.isDigit) then
    let ip := l.takeWhile (fun c => c ≠ '.')
    let fp := (l.dropWhile (fun c => c ≠ '.')).drop 1
    some ((digitsToNat ip : ℚ) + (digitsToNat fp : ℚ) / (10 : ℚ) ^ fp.length)
  else none

/-- Python `str.rfind`: index of the last occurrence of `c`, `-1` when absent. -/
def rfind (c : Char) (l : List Char) : Int :=
  match l.reverse.findIdx? (fun d => d == c) with
  | some j => (l.length : Int) - 1 - j
  | none => -1

/-- Characters kept by `re.sub(r'[^\d.,]', '', price_text)` in `_clean_price`. -/
def priceCharFilter (l : List Char) : List Char :=
  l.filter (fun c => c.isDigit || c == '.' || c == ',')

/-- Separator-normalisation step of `BaseScraper._clean_price`: the two
`replace` chains guarded by the comma/period case analysis of the source. -/
def normalizeSeparators (pc : List Char) : List Char :=
  if pc.contains ',' && pc.contains '.' then
    if rfind ',' pc > rfind '.' pc then
      (pc.filter (fun c => c ≠ '.')).map (fun c => if c == ',' then '.' else c)
    else
      pc.filter (fun c => c ≠ ',')
  else if pc.contains ',' then
    if (pc.reverse.takeWhile (fun c => c ≠ ',')).length ≤ 2 then
      pc.map (fun c => if c == ',' then '.' else c)
    else
      pc.filter (fun c => c ≠ ',')
  else pc

/-- Embedding of `BaseScraper._clean_price`: empty input short-circuits to the
failure sentinel `0`, otherwise strip, normalise separators and parse. -/
def cleanPrice (s : String) : ℚ :=
  if s.data.isEmpty then 0
  else (parseFloat? (normalizeSeparators (priceCharFilter s.data))).getD 0

/-- Separator normalisation following the words of spec §4.3: when both
separators are present, the one appearing later in the string is the decimal
separator, the other one is removed; a lone comma is a decimal separator
exactly when at most 2 digits follow it, otherwise it is removed. -/
def specSeparators (t : List Char) : List Char :=
  if t.contains ',' && t.contains '.' then
    let dec : Char := if rfind ',' t > rfind '.' t then ',' else '.'
    let other : Char := if dec == ',' then '.' else ','
    (t.filter (fun c => c ≠ other)).map (fun c => if c == dec then '.' else c)
  else if t.contains ',' then
    if ((t.reverse.takeWhile (fun c => c ≠ ',')).filter
        (fun c => c.isDigit)).length ≤ 2 then
      t.map (fun c => if c == ',' then '.' else c)
    else
      t.filter (fun c => c ≠ ',')
  else t

/-- Price normalisation following the words of spec §4.3, to be compared with
the source-derived `cleanPrice`. -/
def cleanPriceSpec (s : String) : ℚ :=
  (parseFloat? (specSeparators (priceCharFilter s.data))).getD 0

/-- Lowercased character list of a string, embedding Python `str.lower()`
restricted to ASCII letters. -/
def lowerData (s : String) : List Char := s.data.map Char.toLower

/-- Python `any(phrase in text for phrase in phrases)`. -/
def anyPhraseIn (phrases : List String) (text : List Char) : Bool :=
  phrases.any (fun p => hasSub p.data text)

/-- Embedding of `AmazonScraper._extract_amazon_availability` as a function of
the availability text obtained from the selector cascade. -/
def extractAmazonAvailability (availabilityText : String) : String :=
  if availabilityText.data.isEmpty then "Disponibilité inconnue"
  else if anyPhraseIn ["en stock", "in stock", "disponible"]
      (lowerData availabilityText) then "En stock"
  else if anyPhraseIn ["temporairement", "currently unavailable", "indisponible"]
      (lowerData availabilityText) then "Temporairement indisponible"
  else if anyPhraseIn ["rupture", "out of stock"] (lowerData availabilityText) then
    "Rupture de stock"
  else availabilityText

/-- Add-to-cart control as seen by the availability classifiers: the `disabled`
attribute, the class list, and the button text. -/
structure CartButton where
  disabled : Bool
  classes : List String
  text : String
deriving DecidableEq, Repr

/-- Keyword list `out_of_stock_keywords` of `ShopifyScraper._determine_availability`. -/
def shopifyOutKeywords : List String :=
  ["rupture", "épuisé", "indisponible", "out of stock", "sold out"]

/-- Keyword list `in_stock_keywords` of `ShopifyScraper._determine_availability`. -/
def shopifyInKeywords : List String :=
  ["en stock", "disponible", "in stock", "available"]

/-- Loop over the add-to-cart buttons at the end of
`ShopifyScraper._determine_availability`. -/
def scanCartButtons : List CartButton → String
  | [] => "Disponibilité inconnue"
  | b :: rest =>
    if b.disabled || b.classes.contains "disabled" then "Rupture de stock"
    else if anyPhraseIn shopifyOutKeywords (lowerData b.text) then "Rupture de stock"
    else scanCartButtons rest

/-- Embedding of `ShopifyScraper._determine_availability`; `buttons` is the
list of matched add-to-cart controls of the parsed page. -/
def determineAvailability (availabilityText : String) (buttons : List CartButton) : String :=
  if anyPhraseIn shopifyOutKeywords (lowerData availabilityText) then "Rupture de stock"
  else if anyPhraseIn shopifyInKeywords (lowerData availabilityText) then "En stock"
  else scanCartButtons buttons

/-- Verdict of the stock-text branch of `EtsyScraper._extract_etsy_availability`;
`none` when the source falls through to the add-to-cart button check. -/
def etsyStockTextVerdict (stockText : String) : Option String :=
  if stockText.data.isEmpty then none
  else if hasSub "en stock".data (lowerData stockText)
      || anyPhraseIn ["disponible", "available"] (lowerData stockText) then
    some "En stock"
  else if anyPhraseIn ["épuisé", "sold out", "unavailable"] (lowerData stockText) then
    some "Rupture de stock"
  else if stockText.data.any (fun c => c.isDigit) then
    some ("En stock (" ++ stockText ++ ")")
  else none

/-- Embedding of `EtsyScraper._extract_etsy_availability`: the stock text from
the selector cascade plus the optional add-to-cart button. -/
def extractEtsyAvailability (stockText : String) (addButton : Option CartButton) : String :=
  match etsyStockTextVerdict stockText with
  | some r => r
  | none =>
    match addButton with
    | some b =>
      if b.disabled || b.classes.contains "disabled" then "Rupture de stock" else "En stock"
    | none => "Disponibilité inconnue"

/-- Python `\s*`: drop the maximal run of whitespace. -/
def skipSpaces (l : List Char) : List Char := l.dropWhile (fun c => c.isWhitespace)

/-- Match of `\d+[.,]\d+` anchored at the front of `l`, returning the exact
decimal value of the captured group (after `.replace(',', '.')` and `float`)
and the rest of the input. -/
def matchDecimalAt (l : List Char) : Option (ℚ × List Char) :=
  if (l.takeWhile (fun c => c.isDigit)).isEmpty then none
  else
    match l.dropWhile (fun c => c.isDigit) with
    | sep :: r2 =>
      if (sep == ',' || sep == '.') && !(r2.takeWhile (fun c => c.isDigit)).isEmpty then
        some ((digitsToNat (l.takeWhile (fun c => c.isDigit)) : ℚ)
            + (digitsToNat (r2.takeWhile (fun c => c.isDigit)) : ℚ)
              / (10 : ℚ) ^ (r2.takeWhile (fun c => c.isDigit)).length,
          r2.dropWhile (fun c => c.isDigit))
      else none
    | [] => none

/-- Tail `\s*[/sur]\s*5` of the first rating pattern. Since the class `[/sur]`
and the literal `5` contain no whitespace, the greedy `\s*` runs are exactly
the maximal whitespace runs. -/
def ratingTail1 (l : List Char) : Bool :=
  match skipSpaces l with
  | c :: r2 =>
    (c == '/' || c == 's' || c == 'u' || c == 'r') &&
      (match skipSpaces r2 with
       | d :: _ => d == '5'
       | [] => false)
  | [] => false

/-- Tail `\s*★` of the second rating pattern. -/
def ratingTail2 (l : List Char) : Bool :=
  match skipSpaces l with
  | c :: _ => c == '★'
  | [] => false

/-- Tail `\s*étoiles?` of the third rating pattern: the optional `s?` does not
constrain the match. -/
def ratingTail3 (l : List Char) : Bool := startsWithSeq "étoile".data (skipSpaces l)

/-- Tail `\s*stars?` of the fourth rating pattern. -/
def ratingTail4 (l : List Char) : Bool := startsWithSeq "star".data (skipSpaces l)

/-- Match of one rating pattern anchored at the front of the input. -/
def matchRatingAt (tail : List Char → Bool) (l : List Char) : Option ℚ :=
  match matchDecimalAt l with
  | some (v, rest) => if tail rest then some v else none
  | none => none

/-- Leftmost-match search of `re.search`: try the anchored matcher at every
start position from left to right. -/
def scanFor {α : Type} (m : List Char → Option α) : List Char → Option α
  | [] => m []
  | c :: rest =>
    match m (c :: rest) with
    | some v => some v
    | none => scanFor m rest

/-- Rating half of `BaseScraper._extract_rating`: first of the four patterns
that matches anywhere wins. -/
def findRating (l : List Char) : Option ℚ :=
  match scanFor (matchRatingAt ratingTail1) l with
  | some v => some v
  | none =>
    match scanFor (matchRatingAt ratingTail2) l with
    | some v => some v
    | none =>
      match scanFor (matchRatingAt ratingTail3) l with
      | some v => some v
      | none => scanFor (matchRatingAt ratingTail4) l

/-- Match of one review-count pattern `(\d+)\s*<word>` anchored at the front
of the input. -/
def matchCountAt (word : List Char) (l : List Char) : Option Nat :=
  let d := l.takeWhile (fun c => c.isDigit)
  if d.isEmpty then none
  else if startsWithSeq word (skipSpaces (l.dropWhile (fun c => c.isDigit))) then
    some (digitsToNat d)
  else none

/-- Review-count half of `BaseScraper._extract_rating`: first of the three
patterns that matches anywhere wins. -/
def findReviewCount (l : List Char) : Option Nat :=
  match scanFor (matchCountAt "avis".data) l with
  | some n => some n
  | none =>
    match scanFor (matchCountAt "review".data) l with
    | some n => some n
    | none => scanFor (matchCountAt "évaluation".data) l

/-- Result dictionary of `BaseScraper._extract_rating`. -/
structure RatingInfo where
  rating : Option ℚ
  review_count : Option Nat
deriving DecidableEq, Repr

/-- Embedding of `BaseScraper._extract_rating`: empty text short-circuits, the
two values are searched independently on the lowercased text. -/
def extractRating (s : String) : RatingInfo :=
  if s.data.isEmpty then ⟨none, none⟩
  else ⟨findRating (lowerData s), findReviewCount (lowerData s)⟩

/-- Outcome of one HTTP attempt inside `BaseScraper._make_request`: a status
code, or a raised `requests.exceptions.RequestException`. -/
inductive FetchOutcome where
  | status (code : Nat)
  | exc
deriving DecidableEq, Repr

/-- Retry loop of `BaseScraper._make_request`, fuelled by the remaining
attempts; returns the index of the first attempt whose status is 200. -/
def requestLoop (attempts : Nat → FetchOutcome) : Nat → Nat → Option Nat
  | _, 0 => none
  | i, fuel + 1 =>
    if attempts i = FetchOutcome.status 200 then some i
    else requestLoop attempts (i + 1) fuel

/-- Effective attempt budget: `max_retries = max_retries or self.config.MAX_RETRIES`
with `Config.MAX_RETRIES = 3`, so both `None` and `0` fall back to 3. -/
def effectiveRetries : Option Nat → Nat
  | none => 3
  | some 0 => 3
  | some (n + 1) => n + 1

/-- Embedding of `BaseScraper._make_request` over the sequence of attempt
outcomes; `some i` stands for returning the response of attempt `i`. -/
def makeRequest (attempts : Nat → FetchOutcome) (maxRetries : Option Nat) : Option Nat :=
  requestLoop attempts 0 (effectiveRetries maxRetries)

/-- Number of attempts the retry loop executes before returning. -/
def attemptTrace (attempts : Nat → FetchOutcome) : Nat → Nat → Nat
  | _, 0 => 0
  | i, fuel + 1 =>
    if attempts i = FetchOutcome.status 200 then 1
    else 1 + attemptTrace attempts (i + 1) fuel

/-- Number of HTTP attempts `_make_request` performs for a given budget. -/
def attemptsPerformed (attempts : Nat → FetchOutcome) (maxRetries : Option Nat) : Nat :=
  attemptTrace attempts 0 (effectiveRetries maxRetries)

/-- Fields a site-specific `scrape_product` returns on success. -/
structure ScrapedFields where
  title : String
  price : ℚ
  availability : String
  rating : Option ℚ
  review_count : Option Nat
  description : String
deriving DecidableEq, Repr

/-- Product dictionary assembled by `BaseScraper.get_product_data` (timestamps
and durations, which are wall-clock data, are omitted from the embedding). -/
structure ProductData where
  url : String
  title : String
  price : ℚ
  availability : String
  rating : Option ℚ
  review_count : Option Nat
  description : String
  success : Bool
  error_message : String
deriving DecidableEq, Repr

/-- Embedding of `BaseScraper.get_product_data`: the defaults dictionary is
updated with the scraped fields and `success = True` only when the site
specific `scrape_product` did not raise; a raise leaves the defaults and
records the message. -/
def getProductData (url : String) (scrapeResult : Except String ScrapedFields) : ProductData :=
  match scrapeResult with
  | Except.ok f =>
    { url := url, title := f.title, price := f.price, availability := f.availability,
      rating := f.rating, review_count := f.review_count, description := f.description,
      success := true, error_message := "" }
  | Except.error e =>
    { url := url, title := "", price := 0, availability := "", rating := none,
      review_count := none, description := "", success := false, error_message := e }

/-- Batch loop of `main.scrape_products`: every URL yields one record and the
loop continues past failures. -/
def scrapeBatch (items : List (String × Except String ScrapedFields)) : List ProductData :=
  items.map (fun it => getProductData it.1 it.2)

/-- Embedding of `FiverrScraper.scrape_product` on a fetched and parsed page,
as a function of the texts the selector cascades extract from it; line 54 of
the source sets the availability to the constant `'Disponible'`. -/
def fiverrScrapeProduct (title priceText description : String)
    (ratingInfo : RatingInfo) : ScrapedFields :=
  { title := title
    price := cleanPrice priceText
    availability := "Disponible"
    rating := ratingInfo.rating
    review_count := ratingInfo.review_count
    description := if description.isEmpty then "" else description.take 500 }

/-- Row of a snapshot as the diff engine reads it: pandas `.get` with a default
is modelled by `Option` fields. -/
structure PRecord where
  url : String
  title : Option String
  price : Option ℚ
  availability : Option String
deriving DecidableEq, Repr

/-- Record of `comparison_results['price_changes']`. -/
structure PriceChange where
  url : String
  title : String
  old_price : ℚ
  new_price : ℚ
  change_percent : ℚ
deriving DecidableEq, Repr

/-- Record of `comparison_results['availability_changes']`. -/
structure AvailChange where
  url : String
  title : String
  old_availability : String
  new_availability : String
deriving DecidableEq, Repr

/-- Record of `comparison_results['new_products']`. -/
structure NewProduct where
  url : String
  title : String
  price : ℚ
deriving DecidableEq, Repr

/-- Record of `comparison_results['removed_products']`. -/
structure RemovedProduct where
  url : String
  title : String
  last_price : ℚ
deriving DecidableEq, Repr

/-- Output of `ReportGenerator.generate_comparison_report` (the derived
summary counts are omitted). -/
structure ChangeSet where
  price_changes : List PriceChange
  availability_changes : List AvailChange
  new_products : List NewProduct
  removed_products : List RemovedProduct
deriving DecidableEq, Repr

/-- Distinct URLs of a snapshot, in first-occurrence order (the embedding of
iterating a Python `set` built from the url column). -/
def urlsOf (l : List PRecord) : List String := (l.map (fun r => r.url)).dedup

/-- Row selected for a URL on the current side:
`current_df[current_df['url'] == url].iloc[0]`. -/
def findCur (cur : List PRecord) (u : String) : Option PRecord :=
  cur.find? (fun r => r.url == u)

/-- Row selected for a URL on the historical side:
`historical_df[historical_df['url'] == url].iloc[-1]`. -/
def findHist (hist : List PRecord) (u : String) : Option PRecord :=
  hist.reverse.find? (fun r => r.url == u)

/-- URLs common to both snapshots, in first-occurrence order of the current
snapshot. -/
def commonUrls (cur hist : List PRecord) : List String :=
  (urlsOf cur).filter (fun u => (hist.map (fun r => r.url)).contains u)

/-- Rounding half to even, the behaviour of Python's built-in `round`. -/
def roundHalfEven (x : ℚ) : ℤ :=
  let f := ⌊x⌋
  if x - f < 1 / 2 then f
  else if 1 / 2 < x - f then f + 1
  else if Even f then f else f + 1

/-- Python `round(x, 2)`. -/
def round2 (x : ℚ) : ℚ := ((roundHalfEven (x * 100) : ℤ) : ℚ) / 100

/-- Value of `Config.PRICE_CHANGE_THRESHOLD`. -/
def defaultThreshold : ℚ := 5

/-- Price-change record the loop body of `generate_comparison_report` appends
for one common URL, when any. -/
def priceChangeFor (cur hist : List PRecord) (threshold : ℚ) (u : String) :
    Option PriceChange :=
  match findCur cur u, findHist hist u with
  | some c, some h =>
    if 0 < c.price.getD 0 ∧ 0 < h.price.getD 0 then
      if threshold ≤ |(c.price.getD 0 - h.price.getD 0) / h.price.getD 0 * 100| then
        some ⟨u, c.title.getD "", h.price.getD 0, c.price.getD 0,
          round2 ((c.price.getD 0 - h.price.getD 0) / h.price.getD 0 * 100)⟩
      else none
    else none
  | _, _ => none

/-- Availability-change record the loop body of `generate_comparison_report`
appends for one common URL, when any. -/
def availChangeFor (cur hist : List PRecord) (u : String) : Option AvailChange :=
  match findCur cur u, findHist hist u with
  | some c, some h =>
    if c.availability.getD "" ≠ h.availability.getD "" then
      some ⟨u, c.title.getD "", h.availability.getD "", c.availability.getD ""⟩
    else none
  | _, _ => none

/-- New-product record for a URL only present in the current snapshot. -/
def newProductFor (cur : List PRecord) (u : String) : Option NewProduct :=
  (findCur cur u).map (fun c => ⟨u, c.title.getD "", c.price.getD 0⟩)

/-- Removed-product record for a URL only present in the historical snapshot,
carrying its last known price. -/
def removedProductFor (hist : List PRecord) (u : String) : Option RemovedProduct :=
  (findHist hist u).map (fun h => ⟨u, h.title.getD "", h.price.getD 0⟩)

/-- Embedding of `ReportGenerator.generate_comparison_report`: empty input on
either side short-circuits to the empty report (`return {}` in the source). -/
def generateComparisonReport (cur hist : List PRecord) (threshold : ℚ) : ChangeSet :=
  if cur.isEmpty || hist.isEmpty then ⟨[], [], [], []⟩
  else
    { price_changes := (commonUrls cur hist).filterMap (priceChangeFor cur hist threshold)
      availability_changes := (commonUrls cur hist).filterMap (availChangeFor cur hist)
      new_products :=
        ((urlsOf cur).filter
          (fun u => !(hist.map (fun r => r.url)).contains u)).filterMap (newProductFor cur)
      removed_products :=
        ((urlsOf hist).filter
          (fun u => !(cur.map (fun r => r.url)).contains u)).filterMap (removedProductFor hist) }

/-! ## Helper lemmas -/

lemma map_self_if (l : List Char) (d : Char) :
    l.map (fun c => if c == d then d else c) = l := by
  induction l with
  | nil => rfl
  | cons a as ih =>
    have ha : (if a == d then d else a) = a := by
      by_cases h : a = d
      · subst h; simp
      · simp [h]
    simp only [List.map_cons, ha, ih]

lemma map_self_if' (l : List Char) (d : Char) :
    l.map (fun c => if c = d then d else c) = l := by
  induction l with
  | nil => rfl
  | cons a as ih =>
    have ha : (if a = d then d else a) = a := by
      by_cases h : a = d
      · subst h; simp
      · simp [h]
    simp only [List.map_cons, ha, ih]

lemma priceCharFilter_mem {l : List Char} {c : Char} (hc : c ∈ priceCharFilter l) :
    (c.isDigit || c == '.' || c == ',') = true :=
  (List.mem_filter.mp hc).2

lemma takeWhile_digits_of_no_dot {t : List Char}
    (hall : ∀ c ∈ t, (c.isDigit || c == '.' || c == ',') = true)
    (hdot : t.contains '.' = false) :
    (t.reverse.takeWhile (fun c => c ≠ ',')).filter (fun c => c.isDigit)
      = t.reverse.takeWhile (fun c => c ≠ ',') := by
  apply List.filter_eq_self.mpr
  intro c hc
  have hmem : c ∈ t := List.mem_reverse.mp ((List.takeWhile_sublist _).subset hc)
  have hcomma : c ≠ ',' := by simpa using List.mem_takeWhile_imp hc
  have hdotc : c ≠ '.' := by
    intro h
    subst h
    have h2 : t.contains '.' = true := List.elem_iff.mpr hmem
    rw [h2] at hdot
    simp at hdot
  have := hall c hmem
  simpa [hcomma, hdotc] using this

lemma normalizeSeparators_eq_spec (l : List Char) :
    normalizeSeparators (priceCharFilter l) = specSeparators (priceCharFilter l) := by
  have hall : ∀ c ∈ priceCharFilter l, (c.isDigit || c == '.' || c == ',') = true :=
    fun c hc => priceCharFilter_mem hc
  generalize ht : priceCharFilter l = t at hall
  unfold normalizeSeparators specSeparators
  cases hcomma : t.contains ',' with
  | false => simp [hcomma]
  | true =>
    cases hdot : t.contains '.' with
    | true =>
      by_cases h2 : rfind ',' t > rfind '.' t
      · simp [hcomma, hdot, h2]
      · simp [hcomma, hdot, h2]
        first
        | rfl
        | exact (map_self_if' _ '.').symm
    | false =>
      rw [takeWhile_digits_of_no_dot hall hdot]
      simp [hcomma, hdot]

lemma parseFloat_eval {l : List Char} {a b k : Nat}
    (hcond : (l.all (fun c => c.isDigit || c == '.') && decide (l.count '.' ≤ 1)
      && l.any (fun c => c.isDigit)) = true)
    (ha : digitsToNat (l.takeWhile (fun c => c ≠ '.')) = a)
    (hb : digitsToNat ((l.dropWhile (fun c => c ≠ '.')).drop 1) = b)
    (hk : ((l.dropWhile (fun c => c ≠ '.')).drop 1).length = k) :
    parseFloat? l = some ((a : ℚ) + (b : ℚ) / (10 : ℚ) ^ k) := by
  simp only [parseFloat?, hcond, if_true, ha, hb, hk]

lemma cleanPrice_eval {s : String} {m : List Char} {q : ℚ}
    (hne : s.data.isEmpty = false)
    (hnorm : normalizeSeparators (priceCharFilter s.data) = m)
    (hm : parseFloat? m = some q) :
    cleanPrice s = q := by
  simp only [cleanPrice, hne, Bool.false_eq_true, if_false, hnorm, hm, Option.getD_some]

/-! ## C1 — price normalization -/

/-- C1: `_clean_price` is a pure total function that strips all characters
except digits, comma and period, treats the later of the two separators as the
decimal separator when both are present, treats a lone comma as a decimal
separator exactly when at most 2 digits follow it (otherwise removes it),
returns the failure sentinel 0 on parse failure, and maps the four reference
inputs to 1234.56, 1234.56, 12.50 and 0 respectively. -/
theorem clean_price_normalization :
    (∀ s : String, cleanPrice s = cleanPriceSpec s)
    ∧ cleanPrice "1.234,56" = 123456 / 100
    ∧ cleanPrice "1,234.56" = 123456 / 100
    ∧ cleanPrice "12,50" = 1250 / 100
    ∧ cleanPrice "abc" = 0 := by
  refine ⟨?_, ?_, ?_, ?_, ?_⟩
  · intro s
    unfold cleanPrice cleanPriceSpec
    by_cases hs : s.data.isEmpty
    · have hnil : s.data = [] := by simpa using hs
      simp [hs, hnil, priceCharFilter, specSeparators, parseFloat?]
    · simp [hs, normalizeSeparators_eq_spec]
  · have e : cleanPrice "1.234,56" = ((1234 : ℚ) + (56 : ℚ) / (10 : ℚ) ^ 2) :=
      cleanPrice_eval (by decide) (m := "1234.56".data)
        (by decide) (parseFloat_eval (by decide) (by decide) (by decide) (by decide))
    rw [e]; norm_num
  · have e : cleanPrice "1,234.56" = ((1234 : ℚ) + (56 : ℚ) / (10 : ℚ) ^ 2) :=
      cleanPrice_eval (by decide) (m := "1234.56".data)
        (by decide) (parseFloat_eval (by decide) (by decide) (by decide) (by decide))
    rw [e]; norm_num
  · have e : cleanPrice "12,50" = ((12 : ℚ) + (50 : ℚ) / (10 : ℚ) ^ 2) :=
      cleanPrice_eval (by decide) (m := "12.50".data)
        (by decide) (parseFloat_eval (by decide) (by decide) (by decide) (by decide))
    rw [e]; norm_num
  · rfl

/-! ## C2, C3 — availability classification -/

lemma scanCartButtons_closed (bs : List CartButton) :
    scanCartButtons bs = "Rupture de stock" ∨ scanCartButtons bs = "Disponibilité inconnue" := by
  induction bs with
  | nil => right; rfl
  | cons b rest ih =>
    unfold scanCartButtons
    split
    · left; rfl
    · split
      · left; rfl
      · exact ih

/-- C2 counterexample: on the availability text `"bientot"`, which matches no
keyword, `_extract_amazon_availability` returns the raw input text itself,
which is none of the five closed enum values. -/
theorem availability_not_closed_cex :
    extractAmazonAvailability "bientot" = "bientot"
    ∧ "bientot" ∉ ["En stock", "Rupture de stock", "Temporairement indisponible",
        "Expired", "Disponibilité inconnue", "Disponible"] := by
  refine ⟨rfl, by decide⟩

/-- C2 amended: availability classification is total and never throws, and
Shopify's classifier always lands in the closed three-value set; but Amazon's
classifier falls back to the raw input text when no keyword matches, and
Etsy's can decorate the raw stock text as `'En stock (…)'`. -/
theorem availability_total_amended :
    (∀ t bs, determineAvailability t bs ∈
      ["Rupture de stock", "En stock", "Disponibilité inconnue"])
    ∧ (∀ t : String, extractAmazonAvailability t ∈
        ["Disponibilité inconnue", "En stock", "Temporairement indisponible",
          "Rupture de stock"]
        ∨ extractAmazonAvailability t = t)
    ∧ (∀ t b, extractEtsyAvailability t b ∈
        ["En stock", "Rupture de stock", "Disponibilité inconnue"]
        ∨ extractEtsyAvailability t b = "En stock (" ++ t ++ ")") := by
  refine ⟨?_, ?_, ?_⟩
  · intro t bs
    unfold determineAvailability
    split
    · simp
    · split
      · simp
      · rcases scanCartButtons_closed bs with h | h <;> simp [h]
  · intro t
    unfold extractAmazonAvailability
    split
    · left; simp
    · split
      · left; simp
      · split
        · left; simp
        · split
          · left; simp
          · right; rfl
  · intro t b
    have hv : etsyStockTextVerdict t = none ∨ etsyStockTextVerdict t = some "En stock"
        ∨ etsyStockTextVerdict t = some "Rupture de stock"
        ∨ etsyStockTextVerdict t = some ("En stock (" ++ t ++ ")") := by
      unfold etsyStockTextVerdict
      split
      · left; rfl
      · split
        · right; left; rfl
        · split
          · right; right; left; rfl
          · split
            · right; right; right; rfl
            · left; rfl
    rcases hv with h | h | h | h
    · unfold extractEtsyAvailability
      rw [h]
      cases b with
      | none => left; simp
      | some btn =>
        left
        dsimp only
        split
        · simp
        · simp
    · unfold extractEtsyAvailability
      rw [h]
      left; simp
    · unfold extractEtsyAvailability
      rw [h]
      left; simp
    · unfold extractEtsyAvailability
      rw [h]
      right; rfl

/-- C3 counterexample: the Amazon classifier checks in-stock keywords first,
so the text `"temporairement indisponible"`, which contains the in-stock
substring `"disponible"`, is classified `'En stock'` rather than
`'Temporairement indisponible'`. -/
theorem amazon_priority_cex :
    extractAmazonAvailability "temporairement indisponible" = "En stock" := by
  rfl

/-- C3 amended: Shopify's `_determine_availability` does check out-of-stock
keywords before in-stock ones, consults the add-to-cart DOM signal only when
no keyword matched, and yields `'Disponibilité inconnue'` in the absence of
all signals; Amazon's classifier however checks in-stock keywords first, so
`"temporairement indisponible"` is classified `'En stock'` there. -/
theorem availability_priority_amended :
    (∀ t bs, anyPhraseIn shopifyOutKeywords (lowerData t) = true →
      determineAvailability t bs = "Rupture de stock")
    ∧ (∀ t bs, anyPhraseIn shopifyOutKeywords (lowerData t) = false →
        anyPhraseIn shopifyInKeywords (lowerData t) = false →
        determineAvailability t bs = scanCartButtons bs)
    ∧ (∀ t, anyPhraseIn shopifyOutKeywords (lowerData t) = false →
        anyPhraseIn shopifyInKeywords (lowerData t) = false →
        determineAvailability t [] = "Disponibilité inconnue")
    ∧ determineAvailability "temporairement indisponible" [] = "Rupture de stock"
    ∧ extractAmazonAvailability "temporairement indisponible" = "En stock" := by
  refine ⟨?_, ?_, ?_, rfl, rfl⟩
  · intro t bs h
    unfold determineAvailability
    simp [h]
  · intro t bs h1 h2
    unfold determineAvailability
    simp [h1, h2]
  · intro t h1 h2
    unfold determineAvailability
    simp [h1, h2]
    rfl

/-- C3 witness: the amended priority theorem applied to the out-of-stock text
`"sold out"` with no buttons. -/
theorem availability_priority_witness :
    determineAvailability "sold out" [] = "Rupture de stock" :=
  availability_priority_amended.1 "sold out" [] (by rfl)

/-! ## C10 — Fiverr availability is constant -/

/-- C10: `FiverrScraper.scrape_product` sets the availability field to the
constant `'Disponible'` for every fetched and parsed page, independent of the
extracted texts, so a Fiverr product is never reported out of stock. -/
theorem fiverr_always_available :
    (∀ title priceText description ratingInfo,
      (fiverrScrapeProduct title priceText description ratingInfo).availability
        = "Disponible")
    ∧ "Disponible" ≠ "Rupture de stock" := by
  exact ⟨fun _ _ _ _ => rfl, by decide⟩

/-! ## C7 — fetch retry loop -/

lemma requestLoop_some {f : Nat → FetchOutcome} :
    ∀ fuel i r, requestLoop f i fuel = some r →
      f r = FetchOutcome.status 200 ∧ i ≤ r ∧ r < i + fuel ∧
        ∀ j, i ≤ j → j < r → f j ≠ FetchOutcome.status 200 := by
  intro fuel
  induction fuel with
  | zero => intro i r h; simp [requestLoop] at h
  | succ n ih =>
    intro i r h
    unfold requestLoop at h
    by_cases hi : f i = FetchOutcome.status 200
    · rw [if_pos hi] at h
      obtain rfl : i = r := by injection h
      exact ⟨hi, Nat.le_refl _, by omega, fun j hj1 hj2 => absurd hj1 (by omega)⟩
    · rw [if_neg hi] at h
      obtain ⟨h200, hle, hlt, hmin⟩ := ih (i + 1) r h
      refine ⟨h200, by omega, by omega, ?_⟩
      intro j hj1 hj2
      rcases Nat.eq_or_lt_of_le hj1 with rfl | hj
      · exact hi
      · exact hmin j (by omega) hj2

lemma requestLoop_none {f : Nat → FetchOutcome} :
    ∀ fuel i, requestLoop f i fuel = none ↔
      ∀ j, i ≤ j → j < i + fuel → f j ≠ FetchOutcome.status 200 := by
  intro fuel
  induction fuel with
  | zero =>
    intro i
    constructor
    · intro _ j h1 h2
      exfalso
      omega
    · intro _
      rfl
  | succ n ih =>
    intro i
    unfold requestLoop
    by_cases hi : f i = FetchOutcome.status 200
    · rw [if_pos hi]
      constructor
      · intro h
        exact absurd h (by simp)
      · intro hall
        exact absurd hi (hall i (Nat.le_refl _) (by omega))
    · rw [if_neg hi, ih (i + 1)]
      constructor
      · intro hall j hj1 hj2
        rcases Nat.eq_or_lt_of_le hj1 with rfl | hj
        · exact hi
        · exact hall j (by omega) (by omega)
      · intro hall j hj1 hj2
        exact hall j (by omega) (by omega)

lemma attemptTrace_le {f : Nat → FetchOutcome} :
    ∀ fuel i, attemptTrace f i fuel ≤ fuel := by
  intro fuel
  induction fuel with
  | zero => intro i; simp [attemptTrace]
  | succ n ih =>
    intro i
    unfold attemptTrace
    by_cases hi : f i = FetchOutcome.status 200
    · rw [if_pos hi]; omega
    · rw [if_neg hi]
      have := ih (i + 1)
      omega

/-- C7 counterexample: `max_retries = max_retries or self.config.MAX_RETRIES`
makes a budget of 0 fall back to the default 3, so `_make_request(url, 0)`
performs 3 attempts — not at most 0 — and succeeds when attempt 1 returns
status 200 instead of returning the failure value. -/
theorem make_request_zero_retries_cex :
    attemptsPerformed (fun _ => FetchOutcome.status 429) (some 0) = 3
    ∧ makeRequest (fun _ => FetchOutcome.status 200) (some 0) = some 0 :=
  ⟨rfl, rfl⟩

/-- C7 amended: for every maxRetries = n ≥ 1 the loop performs at most n
attempts, returns the response of the first attempt with HTTP status 200
(403/429, other statuses and request exceptions all consume one attempt and
continue), and returns None exactly when no attempt within the budget has
status 200; passing 0 or None uses the default budget 3. -/
theorem make_request_retry_amended (f : Nat → FetchOutcome) (n : Nat) (hn : 1 ≤ n) :
    attemptsPerformed f (some n) ≤ n
    ∧ (∀ i, makeRequest f (some n) = some i →
        f i = FetchOutcome.status 200 ∧ i < n ∧
          ∀ j, j < i → f j ≠ FetchOutcome.status 200)
    ∧ (makeRequest f (some n) = none ↔ ∀ j, j < n → f j ≠ FetchOutcome.status 200) := by
  have heff : effectiveRetries (some n) = n := by
    cases n with
    | zero => omega
    | succ k => rfl
  unfold attemptsPerformed makeRequest
  rw [heff]
  refine ⟨attemptTrace_le n 0, ?_, ?_⟩
  · intro i h
    obtain ⟨h200, _, hlt, hmin⟩ := requestLoop_some n 0 i h
    exact ⟨h200, by omega, fun j hj => hmin j (by omega) hj⟩
  · rw [requestLoop_none n 0]
    constructor
    · intro hall j hj
      exact hall j (by omega) (by omega)
    · intro hall j hj1 hj2
      exact hall j (by omega)

/-- C7 witness: the amended retry theorem at the reference scenario — HTTP 429
on attempts 1 and 2 and 200 on attempt 3 with maxRetries = 3 — together with
the concrete success on attempt 3 (index 2). -/
theorem make_request_retry_witness :
    makeRequest (fun i => if i < 2 then FetchOutcome.status 429 else FetchOutcome.status 200)
        (some 3) = some 2
    ∧ attemptsPerformed
        (fun i => if i < 2 then FetchOutcome.status 429 else FetchOutcome.status 200)
        (some 3) ≤ 3 :=
  ⟨rfl,
    (make_request_retry_amended
      (fun i => if i < 2 then FetchOutcome.status 429 else FetchOutcome.status 200)
      3 (by omega)).1⟩

/-! ## C8 — failed records keep their defaults -/

/-- C8: whenever `get_product_data` reports `success = false`, every extracted
field still holds its empty or null default and only the error message (plus
timing metadata, not modelled) is populated; the function is total — the site
scraper's exception is caught — and the batch loop yields one record per
input URL, so one failing URL never aborts the batch. -/
theorem failed_record_defaults (url : String) (scr : Except String ScrapedFields)
    (h : (getProductData url scr).success = false) :
    (getProductData url scr).title = ""
    ∧ (getProductData url scr).price = 0
    ∧ (getProductData url scr).availability = ""
    ∧ (getProductData url scr).rating = none
    ∧ (getProductData url scr).review_count = none
    ∧ (getProductData url scr).description = ""
    ∧ (∃ e, scr = Except.error e ∧ (getProductData url scr).error_message = e)
    ∧ (∀ items : List (String × Except String ScrapedFields),
        (scrapeBatch items).length = items.length) := by
  cases scr with
  | ok f => simp [getProductData] at h
  | error e =>
    exact ⟨rfl, rfl, rfl, rfl, rfl, rfl, ⟨e, rfl, rfl⟩,
      fun items => by simp [scrapeBatch]⟩

/-- C8 witness: the defaults theorem applied to a record whose site scraper
raised with message "boom". -/
theorem failed_record_defaults_witness :
    (getProductData "https://x" (Except.error "boom")).success = false
    ∧ (getProductData "https://x" (Except.error "boom")).title = ""
    ∧ (getProductData "https://x" (Except.error "boom")).price = 0 :=
  ⟨rfl, (failed_record_defaults "https://x" (Except.error "boom") rfl).1,
    (failed_record_defaults "https://x" (Except.error "boom") rfl).2.1⟩

/-! ## C9 — rating and review-count extraction -/

lemma matchDecimalAt_nonneg {l : List Char} {v : ℚ} {rest : List Char}
    (h : matchDecimalAt l = some (v, rest)) : 0 ≤ v := by
  unfold matchDecimalAt at h
  split at h
  · exact absurd h (by simp)
  · split at h
    · split at h
      · simp only [Option.some.injEq, Prod.mk.injEq] at h
        obtain ⟨rfl, rfl⟩ := h
        positivity
      · exact absurd h (by simp)
    · exact absurd h (by simp)

lemma matchRatingAt_nonneg {tail : List Char → Bool} {l : List Char} {v : ℚ}
    (h : matchRatingAt tail l = some v) : 0 ≤ v := by
  unfold matchRatingAt at h
  split at h
  · split at h
    · cases h
      exact matchDecimalAt_nonneg (by assumption)
    · exact absurd h (by simp)
  · exact absurd h (by simp)

lemma scanFor_prop {α : Type} {m : List Char → Option α} (P : α → Prop)
    (hm : ∀ l v, m l = some v → P v) :
    ∀ l v, scanFor m l = some v → P v := by
  intro l
  induction l with
  | nil => intro v h; exact hm [] v h
  | cons c rest ih =>
    intro v h
    unfold scanFor at h
    split at h
    · cases h
      exact hm (c :: rest) v (by assumption)
    · exact ih v h

lemma findRating_nonneg {l : List Char} {v : ℚ} (h : findRating l = some v) : 0 ≤ v := by
  unfold findRating at h
  split at h
  · cases h
    exact scanFor_prop _ (fun _ _ hv => matchRatingAt_nonneg hv) l _ (by assumption)
  · split at h
    · cases h
      exact scanFor_prop _ (fun _ _ hv => matchRatingAt_nonneg hv) l _ (by assumption)
    · split at h
      · cases h
        exact scanFor_prop _ (fun _ _ hv => matchRatingAt_nonneg hv) l _ (by assumption)
      · exact scanFor_prop _ (fun _ _ hv => matchRatingAt_nonneg hv) l _ h

/-- C9 counterexample: the rating patterns do not bound the value by 5 —
`_extract_rating("9,9★")` yields rating 9.9, outside [0, 5]. -/
theorem rating_above_five_cex :
    (extractRating "9,9★").rating = some (99 / 10 : ℚ) ∧ ¬((99 / 10 : ℚ) ≤ 5) := by
  constructor
  · have h0 : (extractRating "9,9★").rating = findRating (lowerData "9,9★") := rfl
    rw [h0]
    have h1 : scanFor (matchRatingAt ratingTail1) (lowerData "9,9★") = none := by decide
    have h2 : scanFor (matchRatingAt ratingTail2) (lowerData "9,9★")
        = some ((digitsToNat ['9'] : ℚ) + (digitsToNat ['9'] : ℚ) / (10 : ℚ) ^ (1 : ℕ)) :=
      rfl
    simp only [findRating, h1, h2]
    have h3 : digitsToNat ['9'] = 9 := by decide
    rw [h3]
    norm_num
  · norm_num

/-- C9 amended: the extracted rating, when present, is a non-negative decimal
recovered by the first matching rating pattern, and the review count, when
present, is a non-negative integer recovered by the first matching count
pattern, each independently nullable — but the upper bound 5 on the rating is
not enforced by the code. -/
theorem rating_extraction_amended :
    (∀ s v, (extractRating s).rating = some v → 0 ≤ v)
    ∧ (∀ s v, scanFor (matchRatingAt ratingTail1) (lowerData s) = some v →
        (extractRating s).rating = some v)
    ∧ (∀ s n, scanFor (matchCountAt "avis".data) (lowerData s) = some n →
        (extractRating s).review_count = some n) := by
  refine ⟨?_, ?_, ?_⟩
  · intro s v h
    unfold extractRating at h
    split at h
    · exact absurd h (by simp)
    · exact findRating_nonneg h
  · intro s v h
    by_cases hs : s.data.isEmpty = true
    · exfalso
      have hdata : s.data = [] := by simpa using hs
      have hlow : lowerData s = [] := by simp [lowerData, hdata]
      rw [hlow] at h
      have hnone : scanFor (matchRatingAt ratingTail1) ([] : List Char) = none := rfl
      rw [hnone] at h
      exact absurd h (by simp)
    · unfold extractRating
      rw [if_neg hs]
      simp only [findRating, h]
  · intro s n h
    by_cases hs : s.data.isEmpty = true
    · exfalso
      have hdata : s.data = [] := by simpa using hs
      have hlow : lowerData s = [] := by simp [lowerData, hdata]
      rw [hlow] at h
      have hnone : scanFor (matchCountAt "avis".data) ([] : List Char) = none := rfl
      rw [hnone] at h
      exact absurd h (by simp)
    · unfold extractRating
      rw [if_neg hs]
      simp only [findReviewCount, h]

/-- C9 witness: the amended theorem applied to the text `"4.2/5"`, matched by
the first rating pattern. -/
theorem rating_extraction_witness :
    (extractRating "4.2/5").rating
      = some ((digitsToNat ['4'] : ℚ) + (digitsToNat ['2'] : ℚ) / (10 : ℚ) ^ (1 : ℕ)) :=
  rating_extraction_amended.2.1 "4.2/5" _ rfl

/-! ## Diff engine helper lemmas -/

lemma mem_urlsOf {l : List PRecord} {u : String} :
    u ∈ urlsOf l ↔ ∃ r ∈ l, r.url = u := by
  simp [urlsOf]

lemma contains_urls_iff {l : List PRecord} {u : String} :
    ((l.map (fun r => r.url)).contains u) = true ↔ ∃ r ∈ l, r.url = u := by
  rw [List.elem_iff]
  simp

lemma findCur_eq_some {cur : List PRecord} {u : String} {c : PRecord}
    (h : findCur cur u = some c) : c ∈ cur ∧ c.url = u :=
  ⟨List.mem_of_find?_eq_some h, by simpa using List.find?_some h⟩

lemma findHist_eq_some {hist : List PRecord} {u : String} {r : PRecord}
    (h : findHist hist u = some r) : r ∈ hist ∧ r.url = u :=
  ⟨List.mem_reverse.mp (List.mem_of_find?_eq_some h), by simpa using List.find?_some h⟩

lemma find?_url_eq {l : List PRecord} {u : String} {r : PRecord}
    (hn : (l.map (fun x => x.url)).Nodup) (hr : r ∈ l) (hu : r.url = u) :
    l.find? (fun x => x.url == u) = some r := by
  induction l with
  | nil => cases hr
  | cons a rest ih =>
    rw [List.map_cons, List.nodup_cons] at hn
    by_cases ha : a.url = u
    · rcases List.mem_cons.mp hr with rfl | hrest
      · simp [List.find?_cons, ha]
      · exfalso
        apply hn.1
        rw [ha, ← hu]
        exact List.mem_map.mpr ⟨r, hrest, rfl⟩
    · rcases List.mem_cons.mp hr with rfl | hrest
      · exact absurd hu ha
      · have htail := ih hn.2 hrest
        simpa [List.find?_cons, ha] using htail

lemma findCur_unique {cur : List PRecord} {u : String} {r : PRecord}
    (hn : (cur.map (fun x => x.url)).Nodup) (hr : r ∈ cur) (hu : r.url = u) :
    findCur cur u = some r :=
  find?_url_eq hn hr hu

lemma findHist_unique {hist : List PRecord} {u : String} {r : PRecord}
    (hn : (hist.map (fun x => x.url)).Nodup) (hr : r ∈ hist) (hu : r.url = u) :
    findHist hist u = some r := by
  apply find?_url_eq
  · rw [List.map_reverse]
    exact List.nodup_reverse.mpr hn
  · exact List.mem_reverse.mpr hr
  · exact hu

lemma findCur_perm {cur cur' : List PRecord} {u : String}
    (hp : cur.Perm cur') (hn : (cur.map (fun x => x.url)).Nodup) :
    findCur cur u = findCur cur' u := by
  have hn' : (cur'.map (fun x => x.url)).Nodup := ((hp.map _).nodup_iff).mp hn
  cases hc : findCur cur u with
  | some c =>
    obtain ⟨hmem, hurl⟩ := findCur_eq_some hc
    exact (findCur_unique hn' (hp.mem_iff.mp hmem) hurl).symm
  | none =>
    cases hc' : findCur cur' u with
    | none => rfl
    | some c =>
      obtain ⟨hmem, hurl⟩ := findCur_eq_some hc'
      have := findCur_unique hn (hp.mem_iff.mpr hmem) hurl
      rw [this] at hc
      exact absurd hc (by simp)

lemma findHist_perm {hist hist' : List PRecord} {u : String}
    (hp : hist.Perm hist') (hn : (hist.map (fun x => x.url)).Nodup) :
    findHist hist u = findHist hist' u := by
  have hn' : (hist'.map (fun x => x.url)).Nodup := ((hp.map _).nodup_iff).mp hn
  cases hc : findHist hist u with
  | some c =>
    obtain ⟨hmem, hurl⟩ := findHist_eq_some hc
    exact (findHist_unique hn' (hp.mem_iff.mp hmem) hurl).symm
  | none =>
    cases hc' : findHist hist' u with
    | none => rfl
    | some c =>
      obtain ⟨hmem, hurl⟩ := findHist_eq_some hc'
      have := findHist_unique hn (hp.mem_iff.mpr hmem) hurl
      rw [this] at hc
      exact absurd hc (by simp)

lemma mem_commonUrls {cur hist : List PRecord} {u : String} :
    u ∈ commonUrls cur hist ↔
      (∃ c ∈ cur, c.url = u) ∧ (∃ h ∈ hist, h.url = u) := by
  unfold commonUrls
  rw [List.mem_filter, mem_urlsOf, contains_urls_iff]

lemma priceChangeFor_eq {cur hist : List PRecord} {th : ℚ} {u : String}
    {c h : PRecord} (hc : findCur cur u = some c) (hh : findHist hist u = some h) :
    priceChangeFor cur hist th u =
      if 0 < c.price.getD 0 ∧ 0 < h.price.getD 0 then
        if th ≤ |(c.price.getD 0 - h.price.getD 0) / h.price.getD 0 * 100| then
          some ⟨u, c.title.getD "", h.price.getD 0, c.price.getD 0,
            round2 ((c.price.getD 0 - h.price.getD 0) / h.price.getD 0 * 100)⟩
        else none
      else none := by
  unfold priceChangeFor
  rw [hc, hh]

lemma availChangeFor_eq {cur hist : List PRecord} {u : String}
    {c h : PRecord} (hc : findCur cur u = some c) (hh : findHist hist u = some h) :
    availChangeFor cur hist u =
      if c.availability.getD "" ≠ h.availability.getD "" then
        some ⟨u, c.title.getD "", h.availability.getD "", c.availability.getD ""⟩
      else none := by
  unfold availChangeFor
  rw [hc, hh]

lemma priceChangeFor_url {cur hist : List PRecord} {th : ℚ} {u : String}
    {pc : PriceChange} (h : priceChangeFor cur hist th u = some pc) : pc.url = u := by
  unfold priceChangeFor at h
  split at h
  · split at h
    · split at h
      · cases h
        rfl
      · exact absurd h (by simp)
    · exact absurd h (by simp)
  · exact absurd h (by simp)

lemma availChangeFor_url {cur hist : List PRecord} {u : String}
    {ac : AvailChange} (h : availChangeFor cur hist u = some ac) : ac.url = u := by
  unfold availChangeFor at h
  split at h
  · split at h
    · cases h
      rfl
    · exact absurd h (by simp)
  · exact absurd h (by simp)

lemma newProductFor_url {cur : List PRecord} {u : String}
    {np : NewProduct} (h : newProductFor cur u = some np) : np.url = u := by
  unfold newProductFor at h
  cases hc : findCur cur u with
  | none => rw [hc] at h; exact absurd h (by simp)
  | some c =>
    rw [hc] at h
    cases h
    rfl

lemma removedProductFor_url {hist : List PRecord} {u : String}
    {rp : RemovedProduct} (h : removedProductFor hist u = some rp) : rp.url = u := by
  unfold removedProductFor at h
  cases hc : findHist hist u with
  | none => rw [hc] at h; exact absurd h (by simp)
  | some r =>
    rw [hc] at h
    cases h
    rfl

lemma isEmpty_or_false {cur hist : List PRecord} (hcur : cur ≠ []) (hhist : hist ≠ []) :
    (cur.isEmpty || hist.isEmpty) = false := by
  cases cur with
  | nil => exact absurd rfl hcur
  | cons a l =>
    cases hist with
    | nil => exact absurd rfl hhist
    | cons b m => rfl

lemma generateComparisonReport_eq {cur hist : List PRecord} {th : ℚ}
    (hcur : cur ≠ []) (hhist : hist ≠ []) :
    generateComparisonReport cur hist th =
      { price_changes := (commonUrls cur hist).filterMap (priceChangeFor cur hist th)
        availability_changes := (commonUrls cur hist).filterMap (availChangeFor cur hist)
        new_products :=
          ((urlsOf cur).filter
            (fun u => !(hist.map (fun r => r.url)).contains u)).filterMap (newProductFor cur)
        removed_products :=
          ((urlsOf hist).filter
            (fun u => !(cur.map (fun r => r.url)).contains u)).filterMap
              (removedProductFor hist) } := by
  unfold generateComparisonReport
  rw [isEmpty_or_false hcur hhist]
  rfl

lemma mem_price_changes {cur hist : List PRecord} {th : ℚ} {pc : PriceChange}
    (hcur : cur ≠ []) (hhist : hist ≠ []) :
    pc ∈ (generateComparisonReport cur hist th).price_changes ↔
      pc.url ∈ commonUrls cur hist ∧ priceChangeFor cur hist th pc.url = some pc := by
  rw [generateComparisonReport_eq hcur hhist]
  dsimp only
  rw [List.mem_filterMap]
  constructor
  · rintro ⟨u, hu, hpc⟩
    obtain rfl := priceChangeFor_url hpc
    exact ⟨hu, hpc⟩
  · rintro ⟨hu, hpc⟩
    exact ⟨pc.url, hu, hpc⟩

lemma mem_availability_changes {cur hist : List PRecord} {th : ℚ} {ac : AvailChange}
    (hcur : cur ≠ []) (hhist : hist ≠ []) :
    ac ∈ (generateComparisonReport cur hist th).availability_changes ↔
      ac.url ∈ commonUrls cur hist ∧ availChangeFor cur hist ac.url = some ac := by
  rw [generateComparisonReport_eq hcur hhist]
  dsimp only
  rw [List.mem_filterMap]
  constructor
  · rintro ⟨u, hu, hac⟩
    obtain rfl := availChangeFor_url hac
    exact ⟨hu, hac⟩
  · rintro ⟨hu, hac⟩
    exact ⟨ac.url, hu, hac⟩

lemma mem_new_products {cur hist : List PRecord} {th : ℚ} {np : NewProduct}
    (hcur : cur ≠ []) (hhist : hist ≠ []) :
    np ∈ (generateComparisonReport cur hist th).new_products ↔
      np.url ∈ urlsOf cur ∧ ((hist.map (fun r => r.url)).contains np.url) = false
        ∧ newProductFor cur np.url = some np := by
  rw [generateComparisonReport_eq hcur hhist]
  dsimp only
  rw [List.mem_filterMap]
  constructor
  · rintro ⟨u, hu, hnp⟩
    obtain rfl := newProductFor_url hnp
    rw [List.mem_filter] at hu
    refine ⟨hu.1, ?_, hnp⟩
    simpa using hu.2
  · rintro ⟨hu, hcontains, hnp⟩
    refine ⟨np.url, List.mem_filter.mpr ⟨hu, ?_⟩, hnp⟩
    simp only [hcontains, Bool.not_false]

lemma mem_removed_products {cur hist : List PRecord} {th : ℚ} {rp : RemovedProduct}
    (hcur : cur ≠ []) (hhist : hist ≠ []) :
    rp ∈ (generateComparisonReport cur hist th).removed_products ↔
      rp.url ∈ urlsOf hist ∧ ((cur.map (fun r => r.url)).contains rp.url) = false
        ∧ removedProductFor hist rp.url = some rp := by
  rw [generateComparisonReport_eq hcur hhist]
  dsimp only
  rw [List.mem_filterMap]
  constructor
  · rintro ⟨u, hu, hrp⟩
    obtain rfl := removedProductFor_url hrp
    rw [List.mem_filter] at hu
    refine ⟨hu.1, ?_, hrp⟩
    simpa using hu.2
  · rintro ⟨hu, hcontains, hrp⟩
    refine ⟨rp.url, List.mem_filter.mpr ⟨hu, ?_⟩, hrp⟩
    simp only [hcontains, Bool.not_false]

lemma nodup_keys_filterMap {α : Type} (key : α → String) (f : String → Option α)
    (hf : ∀ u x, f u = some x → key x = u) :
    ∀ l : List String, l.Nodup → ((l.filterMap f).map key).Nodup := by
  intro l
  induction l with
  | nil => intro _; simp
  | cons u rest ih =>
    intro hn
    rcases List.nodup_cons.mp hn with ⟨hnotin, hrest⟩
    rw [List.filterMap_cons]
    cases hfu : f u with
    | none => exact ih hrest
    | some x =>
      rw [List.map_cons]
      apply List.nodup_cons.mpr
      refine ⟨?_, ih hrest⟩
      rw [hf u x hfu]
      intro hmem
      obtain ⟨y, hy, hkey⟩ := List.mem_map.mp hmem
      obtain ⟨u', hu', hfy⟩ := List.mem_filterMap.mp hy
      rw [hf u' y hfy] at hkey
      exact hnotin (hkey ▸ hu')

lemma roundHalfEven_intCast (n : ℤ) : roundHalfEven (n : ℚ) = n := by
  unfold roundHalfEven
  rw [Int.floor_intCast]
  norm_num

lemma round2_five : round2 (5 : ℚ) = 5 := by
  unfold round2
  have h : (5 : ℚ) * 100 = ((500 : ℤ) : ℚ) := by norm_num
  rw [h, roundHalfEven_intCast]
  norm_num

/-! ## C4 — price-change threshold and availability comparison -/

/-- C4: for a URL present in both snapshots (with `c` the first matching
current row and `h` the last matching historical row), a price-change record
is emitted iff both prices are strictly positive and the absolute percentage
change reaches the threshold 5; the emitted record carries the rounded
percentage; an availability-change record is emitted iff the two availability
values differ, independently of the prices. At the boundary, a 100 → 105
change (exactly 5.00%) is included and a 100 → 104.99 change is excluded. -/
theorem diff_price_threshold :
    (∀ (cur hist : List PRecord) (u : String) (c h : PRecord),
      findCur cur u = some c → findHist hist u = some h →
      (((∃ pc ∈ (generateComparisonReport cur hist defaultThreshold).price_changes,
          pc.url = u) ↔
        (0 < c.price.getD 0 ∧ 0 < h.price.getD 0 ∧
          defaultThreshold ≤ |(c.price.getD 0 - h.price.getD 0) / h.price.getD 0 * 100|))
      ∧ (∀ pc ∈ (generateComparisonReport cur hist defaultThreshold).price_changes,
          pc.url = u →
          pc = ⟨u, c.title.getD "", h.price.getD 0, c.price.getD 0,
            round2 ((c.price.getD 0 - h.price.getD 0) / h.price.getD 0 * 100)⟩)
      ∧ ((∃ ac ∈ (generateComparisonReport cur hist defaultThreshold).availability_changes,
          ac.url = u) ↔ c.availability.getD "" ≠ h.availability.getD "")))
    ∧ (⟨"x", "", 100, 105, 5⟩ : PriceChange) ∈
        (generateComparisonReport [⟨"x", none, some 105, none⟩]
          [⟨"x", none, some 100, none⟩] defaultThreshold).price_changes
    ∧ (generateComparisonReport [⟨"x", none, some (10499 / 100), none⟩]
        [⟨"x", none, some 100, none⟩] defaultThreshold).price_changes = [] := by
  have hgen : ∀ (cur hist : List PRecord) (u : String) (c h : PRecord),
      findCur cur u = some c → findHist hist u = some h →
      (((∃ pc ∈ (generateComparisonReport cur hist defaultThreshold).price_changes,
          pc.url = u) ↔
        (0 < c.price.getD 0 ∧ 0 < h.price.getD 0 ∧
          defaultThreshold ≤ |(c.price.getD 0 - h.price.getD 0) / h.price.getD 0 * 100|))
      ∧ (∀ pc ∈ (generateComparisonReport cur hist defaultThreshold).price_changes,
          pc.url = u →
          pc = ⟨u, c.title.getD "", h.price.getD 0, c.price.getD 0,
            round2 ((c.price.getD 0 - h.price.getD 0) / h.price.getD 0 * 100)⟩)
      ∧ ((∃ ac ∈ (generateComparisonReport cur hist defaultThreshold).availability_changes,
          ac.url = u) ↔ c.availability.getD "" ≠ h.availability.getD "")) := by
    intro cur hist u c h hc hh
    have hcur : cur ≠ [] := by
      intro h0
      subst h0
      simp [findCur] at hc
    have hhist : hist ≠ [] := by
      intro h0
      subst h0
      simp [findHist] at hh
    obtain ⟨hcm, hcu⟩ := findCur_eq_some hc
    obtain ⟨hhm, hhu⟩ := findHist_eq_some hh
    have hu : u ∈ commonUrls cur hist :=
      mem_commonUrls.mpr ⟨⟨c, hcm, hcu⟩, ⟨h, hhm, hhu⟩⟩
    refine ⟨⟨?_, ?_⟩, ?_, ?_⟩
    · rintro ⟨pc, hpcmem, hpcurl⟩
      rw [mem_price_changes hcur hhist] at hpcmem
      obtain ⟨-, hpc⟩ := hpcmem
      rw [hpcurl, priceChangeFor_eq hc hh] at hpc
      by_cases h1 : 0 < c.price.getD 0 ∧ 0 < h.price.getD 0
      · rw [if_pos h1] at hpc
        by_cases h2 : defaultThreshold ≤
            |(c.price.getD 0 - h.price.getD 0) / h.price.getD 0 * 100|
        · exact ⟨h1.1, h1.2, h2⟩
        · rw [if_neg h2] at hpc
          exact absurd hpc (by simp)
      · rw [if_neg h1] at hpc
        exact absurd hpc (by simp)
    · rintro ⟨h1, h2, h3⟩
      refine ⟨⟨u, c.title.getD "", h.price.getD 0, c.price.getD 0,
        round2 ((c.price.getD 0 - h.price.getD 0) / h.price.getD 0 * 100)⟩, ?_, rfl⟩
      rw [mem_price_changes hcur hhist]
      refine ⟨hu, ?_⟩
      show priceChangeFor cur hist defaultThreshold u = _
      rw [priceChangeFor_eq hc hh, if_pos ⟨h1, h2⟩, if_pos h3]
    · intro pc hpcmem hpcurl
      rw [mem_price_changes hcur hhist] at hpcmem
      obtain ⟨-, hpc⟩ := hpcmem
      rw [hpcurl, priceChangeFor_eq hc hh] at hpc
      by_cases h1 : 0 < c.price.getD 0 ∧ 0 < h.price.getD 0
      · rw [if_pos h1] at hpc
        by_cases h2 : defaultThreshold ≤
            |(c.price.getD 0 - h.price.getD 0) / h.price.getD 0 * 100|
        · rw [if_pos h2] at hpc
          exact (Option.some.inj hpc).symm
        · rw [if_neg h2] at hpc
          exact absurd hpc (by simp)
      · rw [if_neg h1] at hpc
        exact absurd hpc (by simp)
    · constructor
      · rintro ⟨ac, hacmem, hacurl⟩
        rw [mem_availability_changes hcur hhist] at hacmem
        obtain ⟨-, hac⟩ := hacmem
        rw [hacurl, availChangeFor_eq hc hh] at hac
        by_cases h1 : c.availability.getD "" ≠ h.availability.getD ""
        · exact h1
        · rw [if_neg h1] at hac
          exact absurd hac (by simp)
      · intro hne
        refine ⟨⟨u, c.title.getD "", h.availability.getD "", c.availability.getD ""⟩, ?_, rfl⟩
        rw [mem_availability_changes hcur hhist]
        refine ⟨hu, ?_⟩
        show availChangeFor cur hist u = _
        rw [availChangeFor_eq hc hh, if_pos hne]
  refine ⟨hgen, ?_, ?_⟩
  · have hc : findCur [⟨"x", none, some 105, none⟩] "x"
        = some ⟨"x", none, some 105, none⟩ := rfl
    have hh : findHist [⟨"x", none, some 100, none⟩] "x"
        = some ⟨"x", none, some 100, none⟩ := rfl
    obtain ⟨hiff, huniq, -⟩ :=
      hgen [⟨"x", none, some 105, none⟩] [⟨"x", none, some 100, none⟩] "x" _ _ hc hh
    obtain ⟨pc, hmem, hurl⟩ := hiff.mpr
      ⟨by norm_num, by norm_num, by norm_num [defaultThreshold]⟩
    have hpc := huniq pc hmem hurl
    have harith : (((⟨"x", none, some 105, none⟩ : PRecord).price.getD 0
          - (⟨"x", none, some 100, none⟩ : PRecord).price.getD 0)
          / (⟨"x", none, some 100, none⟩ : PRecord).price.getD 0 * 100) = 5 := by
      norm_num
    rw [harith, round2_five] at hpc
    have : pc = (⟨"x", "", 100, 105, 5⟩ : PriceChange) := by
      rw [hpc]
      simp
    rw [← this]
    exact hmem
  · rw [List.eq_nil_iff_forall_not_mem]
    intro pc hmem
    rw [mem_price_changes (by simp) (by simp)] at hmem
    obtain ⟨hu, hpc⟩ := hmem
    obtain ⟨⟨c, hcm, hcu⟩, -⟩ := mem_commonUrls.mp hu
    have hx : pc.url = "x" := by
      have hc_eq : c = ⟨"x", none, some (10499 / 100 : ℚ), none⟩ :=
        List.mem_singleton.mp hcm
      rw [← hcu, hc_eq]
    rw [hx] at hpc
    have hc : findCur [⟨"x", none, some (10499 / 100 : ℚ), none⟩] "x"
        = some ⟨"x", none, some (10499 / 100 : ℚ), none⟩ := rfl
    have hh : findHist [⟨"x", none, some (100 : ℚ), none⟩] "x"
        = some ⟨"x", none, some (100 : ℚ), none⟩ := rfl
    rw [priceChangeFor_eq hc hh] at hpc
    norm_num [defaultThreshold] at hpc
    obtain ⟨habs, -⟩ := hpc
    rw [abs_of_pos (by norm_num)] at habs
    norm_num at habs

/-- C4 witness: the threshold theorem applied to singleton snapshots with
prices 105 (current) and 100 (historical) for the same URL. -/
theorem diff_price_threshold_witness :
    (∃ pc ∈ (generateComparisonReport [⟨"x", none, some 105, none⟩]
        [⟨"x", none, some 100, none⟩] defaultThreshold).price_changes,
      pc.url = "x") ↔
      (0 < ((⟨"x", none, some 105, none⟩ : PRecord).price.getD 0)
        ∧ 0 < ((⟨"x", none, some 100, none⟩ : PRecord).price.getD 0)
        ∧ defaultThreshold ≤
          |(((⟨"x", none, some 105, none⟩ : PRecord).price.getD 0)
            - ((⟨"x", none, some 100, none⟩ : PRecord).price.getD 0))
            / ((⟨"x", none, some 100, none⟩ : PRecord).price.getD 0) * 100|) :=
  (diff_price_threshold.1 [⟨"x", none, some 105, none⟩] [⟨"x", none, some 100, none⟩]
    "x" _ _ rfl rfl).1

/-! ## C5 — URL partition of the diff output -/

/-- C5 counterexample: when the historical snapshot is empty the source
returns `{}` (an empty report), so `new_products` is empty even though the
current snapshot's URL "a" belongs to current-URLs minus historical-URLs —
the partition property fails for empty inputs. -/
theorem diff_partition_empty_cex :
    (generateComparisonReport [⟨"a", none, some 10, none⟩] [] 5).new_products = []
    ∧ "a" ∈ ([⟨"a", none, some 10, none⟩] : List PRecord).map (fun r => r.url)
    ∧ "a" ∉ (([] : List PRecord).map (fun r => r.url)) := by
  refine ⟨rfl, by simp, by simp⟩

/-- C5 amended: for every pair of nonempty snapshots, the diff output is a
partition by URL membership — a URL present in both snapshots never occurs in
`new_products` or `removed_products`, `new_products` is exactly the current
URLs minus the historical ones, `removed_products` exactly the historical
minus the current with each record carrying the last known price, and no URL
is duplicated within any single output list. (The source returns an empty
report when either snapshot is empty.) -/
theorem diff_partition_amended (cur hist : List PRecord)
    (hcur : cur ≠ []) (hhist : hist ≠ []) :
    (∀ u, (∃ c ∈ cur, c.url = u) → (∃ h ∈ hist, h.url = u) →
      (∀ np ∈ (generateComparisonReport cur hist defaultThreshold).new_products,
        np.url ≠ u)
      ∧ (∀ rp ∈ (generateComparisonReport cur hist defaultThreshold).removed_products,
          rp.url ≠ u))
    ∧ (∀ u, (∃ np ∈ (generateComparisonReport cur hist defaultThreshold).new_products,
          np.url = u)
        ↔ ((∃ c ∈ cur, c.url = u) ∧ ¬∃ h ∈ hist, h.url = u))
    ∧ (∀ u, (∃ rp ∈ (generateComparisonReport cur hist defaultThreshold).removed_products,
          rp.url = u)
        ↔ ((∃ h ∈ hist, h.url = u) ∧ ¬∃ c ∈ cur, c.url = u))
    ∧ (∀ rp ∈ (generateComparisonReport cur hist defaultThreshold).removed_products,
        ∃ h, findHist hist rp.url = some h ∧ rp.last_price = h.price.getD 0)
    ∧ ((generateComparisonReport cur hist defaultThreshold).price_changes.map
        (fun pc => pc.url)).Nodup
    ∧ ((generateComparisonReport cur hist defaultThreshold).availability_changes.map
        (fun ac => ac.url)).Nodup
    ∧ ((generateComparisonReport cur hist defaultThreshold).new_products.map
        (fun np => np.url)).Nodup
    ∧ ((generateComparisonReport cur hist defaultThreshold).removed_products.map
        (fun rp => rp.url)).Nodup := by
  have hnodup_common : (commonUrls cur hist).Nodup :=
    List.Nodup.filter _ (List.nodup_dedup _)
  have hnodup_newbase :
      (((urlsOf cur).filter
        (fun u => !(hist.map (fun r => r.url)).contains u))).Nodup :=
    List.Nodup.filter _ (List.nodup_dedup _)
  have hnodup_rembase :
      (((urlsOf hist).filter
        (fun u => !(cur.map (fun r => r.url)).contains u))).Nodup :=
    List.Nodup.filter _ (List.nodup_dedup _)
  refine ⟨?_, ?_, ?_, ?_, ?_, ?_, ?_, ?_⟩
  · intro u hc hh
    constructor
    · intro np hnp hurl
      rw [mem_new_products hcur hhist] at hnp
      obtain ⟨-, hcontains, -⟩ := hnp
      rw [hurl] at hcontains
      rw [← contains_urls_iff] at hh
      rw [hh] at hcontains
      cases hcontains
    · intro rp hrp hurl
      rw [mem_removed_products hcur hhist] at hrp
      obtain ⟨-, hcontains, -⟩ := hrp
      rw [hurl] at hcontains
      rw [← contains_urls_iff] at hc
      rw [hc] at hcontains
      cases hcontains
  · intro u
    constructor
    · rintro ⟨np, hnp, hurl⟩
      rw [mem_new_products hcur hhist] at hnp
      obtain ⟨hmem, hcontains, -⟩ := hnp
      rw [hurl] at hmem hcontains
      refine ⟨mem_urlsOf.mp hmem, ?_⟩
      intro hh
      rw [← contains_urls_iff] at hh
      rw [hh] at hcontains
      cases hcontains
    · rintro ⟨⟨c, hcm, hcu⟩, hnot⟩
      have hsome : (findCur cur u).isSome := by
        rw [findCur, List.find?_isSome]
        exact ⟨c, hcm, by simp [hcu]⟩
      obtain ⟨c0, hc0⟩ := Option.isSome_iff_exists.mp hsome
      have hcontains : ((hist.map (fun r => r.url)).contains u) = false := by
        rcases Bool.eq_false_or_eq_true ((hist.map (fun r => r.url)).contains u) with
          hb | hb
        · exact absurd (contains_urls_iff.mp hb) hnot
        · exact hb
      refine ⟨⟨u, c0.title.getD "", c0.price.getD 0⟩, ?_, rfl⟩
      rw [mem_new_products hcur hhist]
      refine ⟨mem_urlsOf.mpr ⟨c, hcm, hcu⟩, hcontains, ?_⟩
      show newProductFor cur u = _
      unfold newProductFor
      rw [hc0]
      rfl
  · intro u
    constructor
    · rintro ⟨rp, hrp, hurl⟩
      rw [mem_removed_products hcur hhist] at hrp
      obtain ⟨hmem, hcontains, -⟩ := hrp
      rw [hurl] at hmem hcontains
      refine ⟨mem_urlsOf.mp hmem, ?_⟩
      intro hc
      rw [← contains_urls_iff] at hc
      rw [hc] at hcontains
      cases hcontains
    · rintro ⟨⟨h, hhm, hhu⟩, hnot⟩
      have hsome : (findHist hist u).isSome := by
        rw [findHist, List.find?_isSome]
        exact ⟨h, List.mem_reverse.mpr hhm, by simp [hhu]⟩
      obtain ⟨h0, hh0⟩ := Option.isSome_iff_exists.mp hsome
      have hcontains : ((cur.map (fun r => r.url)).contains u) = false := by
        rcases Bool.eq_false_or_eq_true ((cur.map (fun r => r.url)).contains u) with
          hb | hb
        · exact absurd (contains_urls_iff.mp hb) hnot
        · exact hb
      refine ⟨⟨u, h0.title.getD "", h0.price.getD 0⟩, ?_, rfl⟩
      rw [mem_removed_products hcur hhist]
      refine ⟨mem_urlsOf.mpr ⟨h, hhm, hhu⟩, hcontains, ?_⟩
      show removedProductFor hist u = _
      unfold removedProductFor
      rw [hh0]
      rfl
  · intro rp hrp
    rw [mem_removed_products hcur hhist] at hrp
    obtain ⟨-, -, hfor⟩ := hrp
    unfold removedProductFor at hfor
    cases hh0 : findHist hist rp.url with
    | none =>
      rw [hh0] at hfor
      exact absurd hfor (by simp)
    | some h0 =>
      rw [hh0] at hfor
      refine ⟨h0, rfl, ?_⟩
      have := Option.some.inj hfor
      rw [← this]
  · rw [generateComparisonReport_eq hcur hhist]
    exact nodup_keys_filterMap _ _ (fun u x hx => priceChangeFor_url hx) _ hnodup_common
  · rw [generateComparisonReport_eq hcur hhist]
    exact nodup_keys_filterMap _ _ (fun u x hx => availChangeFor_url hx) _ hnodup_common
  · rw [generateComparisonReport_eq hcur hhist]
    exact nodup_keys_filterMap _ _ (fun u x hx => newProductFor_url hx) _ hnodup_newbase
  · rw [generateComparisonReport_eq hcur hhist]
    exact nodup_keys_filterMap _ _ (fun u x hx => removedProductFor_url hx) _ hnodup_rembase

/-- C5 witness: the partition theorem applied to singleton snapshots with
distinct URLs, specialised to the characterization of `new_products` at "a". -/
theorem diff_partition_witness :
    (∃ np ∈ (generateComparisonReport [⟨"a", none, some 10, none⟩]
        [⟨"b", none, some 3, none⟩] defaultThreshold).new_products, np.url = "a")
      ↔ ((∃ c ∈ ([⟨"a", none, some 10, none⟩] : List PRecord), c.url = "a")
          ∧ ¬∃ h ∈ ([⟨"b", none, some 3, none⟩] : List PRecord), h.url = "a") :=
  (diff_partition_amended [⟨"a", none, some 10, none⟩] [⟨"b", none, some 3, none⟩]
    (by simp) (by simp)).2.1 "a"

/-! ## C6 — order independence of the diff -/

lemma generateComparisonReport_nil_left (hist : List PRecord) (th : ℚ) :
    generateComparisonReport [] hist th = ⟨[], [], [], []⟩ := rfl

lemma generateComparisonReport_nil_right (cur : List PRecord) (th : ℚ) :
    generateComparisonReport cur [] th = ⟨[], [], [], []⟩ := by
  unfold generateComparisonReport
  rw [List.isEmpty_nil, Bool.or_true]
  rfl

lemma mem_urlsOf_perm {l l' : List PRecord} (hp : l.Perm l') (u : String) :
    u ∈ urlsOf l ↔ u ∈ urlsOf l' := by
  rw [mem_urlsOf, mem_urlsOf]
  constructor
  · rintro ⟨r, hr, hu⟩
    exact ⟨r, hp.mem_iff.mp hr, hu⟩
  · rintro ⟨r, hr, hu⟩
    exact ⟨r, hp.mem_iff.mpr hr, hu⟩

lemma contains_perm_eq {l l' : List PRecord} (hp : l.Perm l') (u : String) :
    ((l.map (fun r => r.url)).contains u) = ((l'.map (fun r => r.url)).contains u) := by
  by_cases h : ∃ r ∈ l, r.url = u
  · obtain ⟨r, hr, hu⟩ := h
    rw [contains_urls_iff.mpr ⟨r, hr, hu⟩, contains_urls_iff.mpr ⟨r, hp.mem_iff.mp hr, hu⟩]
  · have h' : ¬∃ r ∈ l', r.url = u := by
      rintro ⟨r, hr, hu⟩
      exact h ⟨r, hp.mem_iff.mpr hr, hu⟩
    have e1 : ((l.map (fun r => r.url)).contains u) = false := by
      rcases Bool.eq_false_or_eq_true ((l.map (fun r => r.url)).contains u) with hb | hb
      · exact absurd (contains_urls_iff.mp hb) h
      · exact hb
    have e2 : ((l'.map (fun r => r.url)).contains u) = false := by
      rcases Bool.eq_false_or_eq_true ((l'.map (fun r => r.url)).contains u) with hb | hb
      · exact absurd (contains_urls_iff.mp hb) h'
      · exact hb
    rw [e1, e2]

/-- C6 counterexample: with a duplicated URL in the historical snapshot,
permuting the historical records changes which row `iloc[-1]` selects, so the
two runs produce different `availability_changes` even as sets — the claim
fails without the unique-URL snapshot invariant. -/
theorem diff_order_dependence_cex :
    ([⟨"a", none, none, some "B"⟩, ⟨"a", none, none, some "A"⟩] : List PRecord).Perm
      [⟨"a", none, none, some "A"⟩, ⟨"a", none, none, some "B"⟩]
    ∧ (generateComparisonReport [⟨"a", none, none, some "A"⟩]
        [⟨"a", none, none, some "B"⟩, ⟨"a", none, none, some "A"⟩]
        defaultThreshold).availability_changes = []
    ∧ (generateComparisonReport [⟨"a", none, none, some "A"⟩]
        [⟨"a", none, none, some "A"⟩, ⟨"a", none, none, some "B"⟩]
        defaultThreshold).availability_changes = [⟨"a", "", "B", "A"⟩] := by
  refine ⟨List.Perm.swap _ _ _, rfl, rfl⟩

/-- C6 amended: under the snapshot invariant that URLs are unique within each
snapshot, permuting the record order of either input leaves every component of
the `ChangeSet` unchanged as a set; without that invariant the selected rows
(first current match, last historical match) do depend on the ordering. -/
theorem diff_order_independence_amended (cur cur' hist hist' : List PRecord)
    (hpc : cur.Perm cur') (hph : hist.Perm hist')
    (hnc : (cur.map (fun r => r.url)).Nodup)
    (hnh : (hist.map (fun r => r.url)).Nodup) :
    (∀ pc, pc ∈ (generateComparisonReport cur hist defaultThreshold).price_changes ↔
      pc ∈ (generateComparisonReport cur' hist' defaultThreshold).price_changes)
    ∧ (∀ ac, ac ∈ (generateComparisonReport cur hist defaultThreshold).availability_changes ↔
        ac ∈ (generateComparisonReport cur' hist' defaultThreshold).availability_changes)
    ∧ (∀ np, np ∈ (generateComparisonReport cur hist defaultThreshold).new_products ↔
        np ∈ (generateComparisonReport cur' hist' defaultThreshold).new_products)
    ∧ (∀ rp, rp ∈ (generateComparisonReport cur hist defaultThreshold).removed_products ↔
        rp ∈ (generateComparisonReport cur' hist' defaultThreshold).removed_products) := by
  by_cases hemp : cur = [] ∨ hist = []
  · rcases hemp with rfl | rfl
    · have hc' : cur' = [] := hpc.symm.eq_nil
      subst hc'
      rw [generateComparisonReport_nil_left, generateComparisonReport_nil_left]
      exact ⟨fun pc => Iff.rfl, fun ac => Iff.rfl, fun np => Iff.rfl, fun rp => Iff.rfl⟩
    · have hh' : hist' = [] := hph.symm.eq_nil
      subst hh'
      rw [generateComparisonReport_nil_right, generateComparisonReport_nil_right]
      exact ⟨fun pc => Iff.rfl, fun ac => Iff.rfl, fun np => Iff.rfl, fun rp => Iff.rfl⟩
  · push_neg at hemp
    obtain ⟨hcur, hhist⟩ := hemp
    have hcur' : cur' ≠ [] := by
      intro h0
      exact hcur (by rw [← List.length_eq_zero, hpc.length_eq, h0]; rfl)
    have hhist' : hist' ≠ [] := by
      intro h0
      exact hhist (by rw [← List.length_eq_zero, hph.length_eq, h0]; rfl)
    have hFcur : ∀ u, findCur cur u = findCur cur' u := fun u => findCur_perm hpc hnc
    have hFhist : ∀ u, findHist hist u = findHist hist' u := fun u => findHist_perm hph hnh
    have hcommon : ∀ u, u ∈ commonUrls cur hist ↔ u ∈ commonUrls cur' hist' := by
      intro u
      rw [mem_commonUrls, mem_commonUrls]
      constructor
      · rintro ⟨⟨c, hc, hu⟩, ⟨h, hh, hu2⟩⟩
        exact ⟨⟨c, hpc.mem_iff.mp hc, hu⟩, ⟨h, hph.mem_iff.mp hh, hu2⟩⟩
      · rintro ⟨⟨c, hc, hu⟩, ⟨h, hh, hu2⟩⟩
        exact ⟨⟨c, hpc.mem_iff.mpr hc, hu⟩, ⟨h, hph.mem_iff.mpr hh, hu2⟩⟩
    refine ⟨?_, ?_, ?_, ?_⟩
    · intro pc
      rw [mem_price_changes hcur hhist, mem_price_changes hcur' hhist']
      unfold priceChangeFor
      rw [hFcur pc.url, hFhist pc.url, hcommon pc.url]
    · intro ac
      rw [mem_availability_changes hcur hhist, mem_availability_changes hcur' hhist']
      unfold availChangeFor
      rw [hFcur ac.url, hFhist ac.url, hcommon ac.url]
    · intro np
      rw [mem_new_products hcur hhist, mem_new_products hcur' hhist']
      unfold newProductFor
      rw [hFcur np.url, contains_perm_eq hph np.url, mem_urlsOf_perm hpc np.url]
    · intro rp
      rw [mem_removed_products hcur hhist, mem_removed_products hcur' hhist']
      unfold removedProductFor
      rw [hFhist rp.url, contains_perm_eq hpc rp.url, mem_urlsOf_perm hph rp.url]

/-- C6 witness: the order-independence theorem applied to two-element
snapshots with unique URLs, one side permuted by a swap, specialised to one
concrete price-change record. -/
theorem diff_order_independence_witness :
    (⟨"a", "", 100, 50, -50⟩ : PriceChange) ∈
      (generateComparisonReport
        [⟨"a", none, some 50, none⟩, ⟨"b", none, some 7, none⟩]
        [⟨"a", none, some 100, none⟩] defaultThreshold).price_changes ↔
    (⟨"a", "", 100, 50, -50⟩ : PriceChange) ∈
      (generateComparisonReport
        [⟨"b", none, some 7, none⟩, ⟨"a", none, some 50, none⟩]
        [⟨"a", none, some 100, none⟩] defaultThreshold).price_changes :=
  (diff_order_independence_amended
    [⟨"a", none, some 50, none⟩, ⟨"b", none, some 7, none⟩]
    [⟨"b", none, some 7, none⟩, ⟨"a", none, some 50, none⟩]
    [⟨"a", none, some 100, none⟩] [⟨"a", none, some 100, none⟩]
    (List.Perm.swap _ _ _) (List.Perm.refl _)
    (by decide) (by decide)).1 ⟨"a", "", 100, 50, -50⟩

end Scrapler
